import Mathlib

/-!
Shallow embedding of the arkanoid-autogame simulation core (src/src/main.rs).
Real-valued program quantities (f32 / rust_decimal::Decimal in the source)
are modelled as rationals; all arithmetic in the source is exact on the
values the program manipulates, and the source itself converts to a decimal
fixed-point type for the one boundary-equality comparison.
-/

/-- Embeds `check_circle_rectangle_collision` (main.rs lines 8-32): clamp the
circle center into the rectangle, compare squared distance against squared
radius, and on collision report whether the clamped point sits on a vertical
and/or a horizontal edge of the rectangle. -/
def check_circle_rectangle_collision (circle_x circle_y radius rect_x1 rect_y1 rect_x2 rect_y2 : ℚ) :
    Option (Bool × Bool) :=
  let nearest_x := max rect_x1 (min circle_x rect_x2)
  let nearest_y := max rect_y1 (min circle_y rect_y2)
  let distance_x := circle_x - nearest_x
  let distance_y := circle_y - nearest_y
  let distance_squared := distance_x * distance_x + distance_y * distance_y
  let radius_squared := radius * radius
  if distance_squared ≤ radius_squared then
    some (decide (nearest_x = rect_x1 ∨ nearest_x = rect_x2),
          decide (nearest_y = rect_y1 ∨ nearest_y = rect_y2))
  else
    none

/-- Embeds `struct Block` (main.rs lines 34-40). -/
structure Block where
  rect_x1 : ℚ
  rect_y1 : ℚ
  rect_x2 : ℚ
  rect_y2 : ℚ
  is_visible : Bool
deriving DecidableEq, Repr

/-- Embeds `Block::new` (main.rs lines 43-51). -/
def Block.new (x1 y1 width height : ℚ) : Block :=
  { rect_x1 := x1, rect_y1 := y1, rect_x2 := x1 + width, rect_y2 := y1 + height,
    is_visible := true }

/-- Embeds `struct Paddle` (main.rs lines 54-61). -/
structure Paddle where
  x : ℚ
  y : ℚ
  width : ℚ
  height : ℚ
  speed : ℚ
  direction : ℚ
deriving DecidableEq, Repr

/-- Embeds `Paddle::new` (main.rs lines 64-73): speed 5, direction +1. -/
def Paddle.new (x y width height : ℚ) : Paddle :=
  { x := x, y := y, width := width, height := height, speed := 5, direction := 1 }

/-- Embeds `Paddle::update_position` (main.rs lines 75-81): advance x by
speed*direction, then flip direction when the new x satisfies
`x <= 0 || x + width >= 800`. -/
def Paddle.update_position (p : Paddle) : Paddle :=
  let x := p.x + p.speed * p.direction
  if x ≤ 0 ∨ x + p.width ≥ 800 then
    { p with x := x, direction := -p.direction }
  else
    { p with x := x }

/-- Embeds `struct MainState` (main.rs lines 84-92). -/
structure MainState where
  circle_x : ℚ
  circle_y : ℚ
  radius : ℚ
  velocity_x : ℚ
  velocity_y : ℚ
  blocks : List Block
  paddle : Paddle
deriving DecidableEq, Repr

/-- Embeds `MainState::new` (main.rs lines 94-121): a 5×10 row-major grid of
30×30 blocks with a 5-unit gutter, paddle (375,550) of size 400×10, ball at
(400,300), radius 15, velocity (3,3). -/
def MainState.new : MainState :=
  { circle_x := 400, circle_y := 300, radius := 15, velocity_x := 3, velocity_y := 3,
    blocks := (List.range 5).flatMap (fun row => (List.range 10).map (fun col =>
      Block.new ((col : ℚ) * (30 + 5)) ((row : ℚ) * (30 + 5)) 30 30)),
    paddle := Paddle.new 375 550 400 10 }

/-- The wall checks of `MainState::update` (main.rs lines 131-136): two
independent position-only tests, each negating one velocity component. -/
def wallResponse (cx cy r vx vy : ℚ) : ℚ × ℚ :=
  (if cx - r ≤ 0 ∨ cx + r ≥ 800 then -vx else vx,
   if cy - r ≤ 0 ∨ cy + r ≥ 600 then -vy else vy)

/-- The paddle check of `MainState::update` (main.rs lines 138-149): when the
ball's lower edge has reached the paddle's y and the center is within the
paddle's span, negate vy and add (center offset)·0.05 to vx. -/
def paddleResponse (cx cy r : ℚ) (p : Paddle) (vx vy : ℚ) : ℚ × ℚ :=
  if cy + r ≥ p.y ∧ cx ≥ p.x ∧ cx ≤ p.x + p.width then
    (vx + (cx - (p.x + p.width / 2)) * (0.05 : ℚ), -vy)
  else
    (vx, vy)

/-- The block loop of `MainState::update` (main.rs lines 151-172): scan all
blocks in order, threading the velocity pair; a visible block that tests
positive flips vx / vy according to the returned flags and is marked
invisible; invisible blocks are skipped. -/
def scanBlocks (cx cy r : ℚ) : List Block → ℚ → ℚ → List Block × ℚ × ℚ
  | [], vx, vy => ([], vx, vy)
  | b :: rest, vx, vy =>
    if b.is_visible then
      match check_circle_rectangle_collision cx cy r b.rect_x1 b.rect_y1 b.rect_x2 b.rect_y2 with
      | some (fx, fy) =>
          let vx1 := if fx then -vx else vx
          let vy1 := if fy then -vy else vy
          let res := scanBlocks cx cy r rest vx1 vy1
          ({ b with is_visible := false } :: res.1, res.2)
      | none =>
          let res := scanBlocks cx cy r rest vx vy
          (b :: res.1, res.2)
    else
      let res := scanBlocks cx cy r rest vx vy
      (b :: res.1, res.2)

/-- Embeds `MainState::update` (main.rs lines 125-175) in source order:
integrate position, move the paddle, wall response, paddle response (against
the already-moved paddle), then the block scan. -/
def MainState.update (s : MainState) : MainState :=
  let cx := s.circle_x + s.velocity_x
  let cy := s.circle_y + s.velocity_y
  let pad := s.paddle.update_position
  let v1 := wallResponse cx cy s.radius s.velocity_x s.velocity_y
  let v2 := paddleResponse cx cy s.radius pad v1.1 v1.2
  let res := scanBlocks cx cy s.radius s.blocks v2.1 v2.2
  { circle_x := cx, circle_y := cy, radius := s.radius,
    velocity_x := res.2.1, velocity_y := res.2.2,
    blocks := res.1, paddle := pad }

/-- The effect of the block scan on one block, in isolation: a visible block
whose collision test is positive is hidden, every other block is unchanged. -/
def stepBlock (cx cy r : ℚ) (b : Block) : Block :=
  if b.is_visible &&
      (check_circle_rectangle_collision cx cy r b.rect_x1 b.rect_y1 b.rect_x2 b.rect_y2).isSome then
    { b with is_visible := false }
  else
    b

/-- The effect of the block scan on the velocity pair, per block: a visible
block that tests positive flips the components its flags select. -/
def blockVelStep (cx cy r : ℚ) (v : ℚ × ℚ) (b : Block) : ℚ × ℚ :=
  if b.is_visible then
    match check_circle_rectangle_collision cx cy r b.rect_x1 b.rect_y1 b.rect_x2 b.rect_y2 with
    | some (fx, fy) => (if fx then -v.1 else v.1, if fy then -v.2 else v.2)
    | none => v
  else
    v

/-- Squared Euclidean distance between two points. -/
def sqDist (ax ay px py : ℚ) : ℚ := (ax - px) * (ax - px) + (ay - py) * (ay - py)

/-- Membership in the closed rectangle. -/
def inRect (px py rx1 ry1 rx2 ry2 : ℚ) : Prop :=
  rx1 ≤ px ∧ px ≤ rx2 ∧ ry1 ≤ py ∧ py ≤ ry2

theorem scanBlocks_eq (cx cy r : ℚ) (l : List Block) (vx vy : ℚ) :
    scanBlocks cx cy r l vx vy =
      (l.map (stepBlock cx cy r), l.foldl (blockVelStep cx cy r) (vx, vy)) := by
  induction l generalizing vx vy with
  | nil => rfl
  | cons b rest ih =>
    by_cases hb : b.is_visible
    · rcases hc : check_circle_rectangle_collision cx cy r b.rect_x1 b.rect_y1 b.rect_x2 b.rect_y2
        with _ | ⟨fx, fy⟩
      · simp [scanBlocks, stepBlock, blockVelStep, hb, hc, ih]
      · simp [scanBlocks, stepBlock, blockVelStep, hb, hc, ih]
    · simp [scanBlocks, stepBlock, blockVelStep, hb, ih]

theorem clamp_mem (a b c : ℚ) (hab : a ≤ b) :
    a ≤ max a (min c b) ∧ max a (min c b) ≤ b := by
  constructor
  · exact le_max_left a (min c b)
  · exact max_le hab (min_le_right c b)

theorem clamp_sq_le (a b c p : ℚ) (h1 : a ≤ p) (h2 : p ≤ b) :
    (c - max a (min c b)) * (c - max a (min c b)) ≤ (c - p) * (c - p) := by
  rcases le_total c a with hca | hac
  · have hcb : c ≤ b := le_trans hca (le_trans h1 h2)
    rw [min_eq_left hcb, max_eq_left hca]
    nlinarith
  · rcases le_total c b with hcb | hbc
    · rw [min_eq_left hcb, max_eq_right hac]
      nlinarith
    · rw [min_eq_right hbc, max_eq_right (le_trans h1 h2)]
      nlinarith

theorem check_spec (cx cy r rx1 ry1 rx2 ry2 : ℚ) :
    check_circle_rectangle_collision cx cy r rx1 ry1 rx2 ry2 =
      if (cx - max rx1 (min cx rx2)) * (cx - max rx1 (min cx rx2)) +
          (cy - max ry1 (min cy ry2)) * (cy - max ry1 (min cy ry2)) ≤ r * r then
        some (decide (max rx1 (min cx rx2) = rx1 ∨ max rx1 (min cx rx2) = rx2),
              decide (max ry1 (min cy ry2) = ry1 ∨ max ry1 (min cy ry2) = ry2))
      else
        none := rfl

/-- C1: the collision test returns none iff the squared distance from the
circle center to every point of the closed rectangle (hence to its nearest
point, which the clamp attains) exceeds the squared radius — equality counts
as a collision — and on collision the vertical-edge flag is true iff the
clamped x equals rect_x1 or rect_x2, the horizontal-edge flag true iff the
clamped y equals rect_y1 or rect_y2 (so a corner hit reports both). -/
theorem thm_C1 (cx cy r rx1 ry1 rx2 ry2 : ℚ) (hx : rx1 ≤ rx2) (hy : ry1 ≤ ry2) (hr : 0 < r) :
    (check_circle_rectangle_collision cx cy r rx1 ry1 rx2 ry2 = none ↔
      ∀ px py, inRect px py rx1 ry1 rx2 ry2 → r * r < sqDist cx cy px py) ∧
    (∀ vf hf, check_circle_rectangle_collision cx cy r rx1 ry1 rx2 ry2 = some (vf, hf) →
      ((vf = true ↔ (max rx1 (min cx rx2) = rx1 ∨ max rx1 (min cx rx2) = rx2)) ∧
       (hf = true ↔ (max ry1 (min cy ry2) = ry1 ∨ max ry1 (min cy ry2) = ry2)))) := by
  have hmemx := clamp_mem rx1 rx2 cx hx
  have hmemy := clamp_mem ry1 ry2 cy hy
  rw [check_spec]
  by_cases hd : (cx - max rx1 (min cx rx2)) * (cx - max rx1 (min cx rx2)) +
      (cy - max ry1 (min cy ry2)) * (cy - max ry1 (min cy ry2)) ≤ r * r
  · rw [if_pos hd]
    constructor
    · constructor
      · intro h
        exact absurd h (by simp)
      · intro hall
        exfalso
        have hclamp := hall (max rx1 (min cx rx2)) (max ry1 (min cy ry2))
          ⟨hmemx.1, hmemx.2, hmemy.1, hmemy.2⟩
        unfold sqDist at hclamp
        linarith
    · intro vf hf hsome
      rw [Option.some.injEq, Prod.mk.injEq] at hsome
      obtain ⟨h1, h2⟩ := hsome
      subst h1
      subst h2
      constructor
      · exact decide_eq_true_iff
      · exact decide_eq_true_iff
  · rw [if_neg hd]
    push_neg at hd
    constructor
    · constructor
      · intro _ px py hmem
        obtain ⟨hm1, hm2, hm3, hm4⟩ := hmem
        have hxle := clamp_sq_le rx1 rx2 cx px hm1 hm2
        have hyle := clamp_sq_le ry1 ry2 cy py hm3 hm4
        unfold sqDist
        linarith
      · intro _
        rfl
    · intro vf hf h
      exact absurd h (by simp)

/-- C1 witness: a concrete circle/rectangle pair with rect_x1 ≤ rect_x2,
rect_y1 ≤ rect_y2 and positive radius, instantiating the theorem. -/
theorem thm_C1_witness :
    ((false : Bool) = true ↔ (max (0:ℚ) (min 15 30) = 0 ∨ max (0:ℚ) (min 15 30) = 30)) ∧
    ((true : Bool) = true ↔ (max (0:ℚ) (min 35 30) = 0 ∨ max (0:ℚ) (min 35 30) = 30)) :=
  (thm_C1 15 35 15 0 0 30 30 (by norm_num) (by norm_num) (by norm_num)).2 false true
    (by with_unfolding_all rfl)

/-- Invariant maintained by the paddle constructed in `MainState::new`:
constant speed 5 and width 400, direction ±1, x a multiple of 5 inside
[0,400], moving away from a boundary it currently touches. -/
def paddleInv (p : Paddle) : Prop :=
  p.speed = 5 ∧ p.width = 400 ∧ (p.direction = 1 ∨ p.direction = -1) ∧
  0 ≤ p.x ∧ p.x ≤ 400 ∧ (∃ k : ℕ, p.x = 5 * k) ∧
  (p.x = 400 → p.direction = -1) ∧ (p.x = 0 → p.direction = 1)

theorem paddleInv_new : paddleInv (Paddle.new 375 550 400 10) := by
  unfold paddleInv Paddle.new
  refine ⟨rfl, rfl, Or.inl rfl, by norm_num, by norm_num, ⟨75, by norm_num⟩, ?_, ?_⟩ <;>
    · intro h
      norm_num at h

/-- Bounds on the next x computed inside `Paddle::update_position`, given the
invariant: it stays in [0,400]. -/
theorem paddleNext_bounds (p : Paddle) (h : paddleInv p) :
    0 ≤ p.x + p.speed * p.direction ∧ p.x + p.speed * p.direction ≤ 400 := by
  obtain ⟨hs, hw, hd, hx0, hx4, ⟨k, hk⟩, h4, h0⟩ := h
  rcases hd with hd | hd
  · have hxne : p.x ≠ 400 := by
      intro hx
      rw [h4 hx] at hd
      norm_num at hd
    have hklt : (k : ℚ) < 80 := by
      by_contra hge
      push_neg at hge
      have : (400 : ℚ) ≤ p.x := by rw [hk]; linarith
      exact hxne (le_antisymm hx4 this)
    have hk79 : (k : ℚ) ≤ 79 := by
      have : k < 80 := by exact_mod_cast hklt
      have : k ≤ 79 := by omega
      exact_mod_cast this
    constructor
    · rw [hs, hd]; linarith
    · rw [hs, hd, hk]; linarith
  · have hxne : p.x ≠ 0 := by
      intro hx
      rw [h0 hx] at hd
      norm_num at hd
    have hkpos : (1 : ℚ) ≤ (k : ℚ) := by
      by_contra hlt
      push_neg at hlt
      have hk0 : k = 0 := by
        have : (k : ℚ) < 1 := hlt
        have : k < 1 := by exact_mod_cast this
        omega
      rw [hk0] at hk
      simp at hk
      exact hxne hk
    constructor
    · rw [hs, hd, hk]; linarith
    · rw [hs, hd]; linarith

theorem paddleInv_step (p : Paddle) (h : paddleInv p) : paddleInv p.update_position := by
  obtain ⟨hb0, hb4⟩ := paddleNext_bounds p h
  obtain ⟨hs, hw, hd, hx0, hx4, ⟨k, hk⟩, h4, h0⟩ := h
  have hk1 : ∃ m : ℕ, p.x + p.speed * p.direction = 5 * m := by
    rcases hd with hd | hd
    · exact ⟨k + 1, by rw [hs, hd, hk]; push_cast; ring⟩
    · refine ⟨k - 1, ?_⟩
      have hkpos : 1 ≤ k := by
        by_contra hlt
        have hk0 : k = 0 := by omega
        rw [hk0] at hk
        simp at hk
        rw [hs, hd, hk] at hb0
        norm_num at hb0
      rw [hs, hd, hk]
      have : ((k - 1 : ℕ) : ℚ) = (k : ℚ) - 1 := by
        push_cast [hkpos]
        ring
      rw [this]
      ring
  unfold Paddle.update_position paddleInv
  by_cases hcond : p.x + p.speed * p.direction ≤ 0 ∨ p.x + p.speed * p.direction + p.width ≥ 800
  · rw [if_pos hcond]
    dsimp only
    have hx' : p.x + p.speed * p.direction = 0 ∨ p.x + p.speed * p.direction = 400 := by
      rcases hcond with hc | hc
      · exact Or.inl (le_antisymm hc hb0)
      · rw [hw] at hc
        exact Or.inr (le_antisymm hb4 (by linarith))
    refine ⟨hs, hw, ?_, hb0, hb4, hk1, ?_, ?_⟩
    · rcases hd with hd | hd
      · exact Or.inr (by rw [hd])
      · exact Or.inl (by rw [hd]; ring)
    · intro h400
      rcases hd with hd | hd
      · rw [hd]
      · exfalso
        rw [hs, hd] at h400
        linarith
    · intro hz0
      rcases hd with hd | hd
      · exfalso
        rw [hs, hd] at hz0
        linarith
      · rw [hd]
        ring
  · rw [if_neg hcond]
    dsimp only
    push_neg at hcond
    obtain ⟨hc1, hc2⟩ := hcond
    refine ⟨hs, hw, hd, hb0, hb4, hk1, ?_, ?_⟩
    · intro h400
      exfalso
      rw [h400, hw] at hc2
      linarith
    · intro hz0
      exfalso
      rw [hz0] at hc1
      linarith

theorem paddle_flip_iff (p : Paddle) (h : paddleInv p) :
    (p.update_position.direction = -p.direction ↔
      p.x + p.speed * p.direction = 0 ∨ p.x + p.speed * p.direction + p.width = 800) := by
  obtain ⟨hb0, hb4⟩ := paddleNext_bounds p h
  obtain ⟨hs, hw, hd, hx0, hx4, _, h4, h0⟩ := h
  have hdne : p.direction ≠ -p.direction := by
    rcases hd with hd | hd <;> rw [hd] <;> norm_num
  unfold Paddle.update_position
  by_cases hcond : p.x + p.speed * p.direction ≤ 0 ∨ p.x + p.speed * p.direction + p.width ≥ 800
  · rw [if_pos hcond]
    dsimp only
    constructor
    · intro _
      rcases hcond with hc | hc
      · exact Or.inl (le_antisymm hc hb0)
      · rw [hw] at hc ⊢
        have h400 : p.x + p.speed * p.direction = 400 := le_antisymm hb4 (by linarith)
        exact Or.inr (by linarith)
    · intro _
      rfl
  · rw [if_neg hcond]
    dsimp only
    push_neg at hcond
    obtain ⟨hc1, hc2⟩ := hcond
    constructor
    · intro hflip
      exact absurd hflip hdne
    · intro hor
      exfalso
      rcases hor with hz | hz
      · linarith
      · linarith

theorem update_paddle (s : MainState) :
    (MainState.update s).paddle = s.paddle.update_position := rfl

theorem iterate_paddle (s : MainState) (n : ℕ) :
    ((MainState.update)^[n] s).paddle = (Paddle.update_position)^[n] s.paddle := by
  induction n with
  | zero => rfl
  | succ n ih =>
    rw [Function.iterate_succ_apply', Function.iterate_succ_apply', update_paddle, ih]

theorem paddleInv_iterate (n : ℕ) :
    paddleInv ((Paddle.update_position)^[n] (Paddle.new 375 550 400 10)) := by
  induction n with
  | zero => exact paddleInv_new
  | succ n ih =>
    rw [Function.iterate_succ_apply']
    exact paddleInv_step _ ih

/-- C2: starting from `MainState::new` (paddle x=375, width 400, speed 5,
direction +1, arena width 800), after every number of ticks of `update` the
paddle's x lies in [0, 800-400], and the direction flips in a tick exactly
when that tick's new x puts the left edge at 0 or the right edge at 800. -/
theorem thm_C2 (n : ℕ) :
    (0 ≤ ((MainState.update)^[n] MainState.new).paddle.x ∧
      ((MainState.update)^[n] MainState.new).paddle.x ≤ 800 - 400) ∧
    (((MainState.update)^[n+1] MainState.new).paddle.direction =
        -((MainState.update)^[n] MainState.new).paddle.direction ↔
      (((MainState.update)^[n] MainState.new).paddle.x +
          ((MainState.update)^[n] MainState.new).paddle.speed *
            ((MainState.update)^[n] MainState.new).paddle.direction = 0 ∨
       ((MainState.update)^[n] MainState.new).paddle.x +
          ((MainState.update)^[n] MainState.new).paddle.speed *
            ((MainState.update)^[n] MainState.new).paddle.direction +
          ((MainState.update)^[n] MainState.new).paddle.width = 800)) := by
  have hpad : ((MainState.update)^[n] MainState.new).paddle
      = (Paddle.update_position)^[n] (Paddle.new 375 550 400 10) := by
    rw [iterate_paddle]
    rfl
  have hpad1 : ((MainState.update)^[n+1] MainState.new).paddle
      = Paddle.update_position (((MainState.update)^[n] MainState.new).paddle) := by
    rw [iterate_paddle, iterate_paddle, Function.iterate_succ_apply']
  rw [hpad1, hpad]
  have hinv := paddleInv_iterate n
  obtain ⟨_, _, _, hx0, hx4, _, _, _⟩ := hinv
  exact ⟨⟨hx0, by linarith⟩, paddle_flip_iff _ (paddleInv_iterate n)⟩

theorem stepBlock_invisible (cx cy r : ℚ) (b : Block) (h : b.is_visible = false) :
    stepBlock cx cy r b = b := by
  unfold stepBlock
  rw [h]
  simp

theorem update_blocks (s : MainState) :
    (MainState.update s).blocks = s.blocks.map
      (stepBlock (s.circle_x + s.velocity_x) (s.circle_y + s.velocity_y) s.radius) := by
  unfold MainState.update
  dsimp only
  rw [scanBlocks_eq]

/-- C3: the Hidden state is absorbing — a block whose visibility flag is
false keeps it false after every further number of ticks — and the scan step
for an invisible block leaves the block and the threaded velocities
untouched, so a hidden block never contributes a collision response. -/
theorem thm_C3 :
    (∀ (s : MainState) (i : ℕ) (b : Block), s.blocks[i]? = some b → b.is_visible = false →
      ∀ n : ℕ, ∃ b2 : Block, ((MainState.update)^[n] s).blocks[i]? = some b2 ∧
        b2.is_visible = false) ∧
    (∀ (cx cy r : ℚ) (b : Block) (l : List Block) (vx vy : ℚ), b.is_visible = false →
      scanBlocks cx cy r (b :: l) vx vy =
        (b :: (scanBlocks cx cy r l vx vy).1, (scanBlocks cx cy r l vx vy).2)) := by
  constructor
  · intro s i b hb hvis n
    induction n generalizing s b with
    | zero => exact ⟨b, hb, hvis⟩
    | succ n ih =>
      rw [Function.iterate_succ_apply]
      refine ih (MainState.update s)
        (stepBlock (s.circle_x + s.velocity_x) (s.circle_y + s.velocity_y) s.radius b) ?_ ?_
      · rw [update_blocks, List.getElem?_map, hb]
        rfl
      · rw [stepBlock_invisible _ _ _ _ hvis]
        exact hvis
  · intro cx cy r b l vx vy h
    simp [scanBlocks, h]

/-- C3 witness: a state holding one already-hidden block; after one tick the
block is still present at index 0 and still hidden. -/
theorem thm_C3_witness :
    ∃ b2 : Block, ((MainState.update)^[1]
        { circle_x := 0, circle_y := 0, radius := 15, velocity_x := 0, velocity_y := 0,
          blocks := [{ rect_x1 := 0, rect_y1 := 0, rect_x2 := 30, rect_y2 := 30,
                       is_visible := false }],
          paddle := Paddle.new 375 550 400 10 }).blocks[0]? = some b2 ∧
      b2.is_visible = false :=
  thm_C3.1
    { circle_x := 0, circle_y := 0, radius := 15, velocity_x := 0, velocity_y := 0,
      blocks := [{ rect_x1 := 0, rect_y1 := 0, rect_x2 := 30, rect_y2 := 30,
                   is_visible := false }],
      paddle := Paddle.new 375 550 400 10 }
    0 { rect_x1 := 0, rect_y1 := 0, rect_x2 := 30, rect_y2 := 30, is_visible := false }
    rfl rfl 1

/-- C4: within one tick's wall response, a left/right wall hit flips only the
sign of velocity_x, a top/bottom hit flips only velocity_y, a simultaneous
corner case flips both; position, radius, block count and paddle are fixed
by other parts of the tick and not by the wall check; and a ball with center
x=0, radius 15 and vx=-3 satisfies x-r ≤ 0 and gets vx flipped to +3. -/
theorem thm_C4 (cx cy r vx vy : ℚ) :
    ((cx - r ≤ 0 ∨ cx + r ≥ 800) → ¬(cy - r ≤ 0 ∨ cy + r ≥ 600) →
        wallResponse cx cy r vx vy = (-vx, vy)) ∧
    (¬(cx - r ≤ 0 ∨ cx + r ≥ 800) → (cy - r ≤ 0 ∨ cy + r ≥ 600) →
        wallResponse cx cy r vx vy = (vx, -vy)) ∧
    ((cx - r ≤ 0 ∨ cx + r ≥ 800) → (cy - r ≤ 0 ∨ cy + r ≥ 600) →
        wallResponse cx cy r vx vy = (-vx, -vy)) ∧
    (∀ s : MainState, (MainState.update s).circle_x = s.circle_x + s.velocity_x ∧
      (MainState.update s).circle_y = s.circle_y + s.velocity_y ∧
      (MainState.update s).radius = s.radius ∧
      (MainState.update s).blocks.length = s.blocks.length ∧
      (MainState.update s).paddle = s.paddle.update_position) ∧
    (((0 : ℚ) - 15 ≤ 0) ∧ wallResponse 0 300 15 (-3) 3 = (3, 3)) := by
  refine ⟨?_, ?_, ?_, ?_, by norm_num [wallResponse]⟩
  · intro hx hy
    unfold wallResponse
    rw [if_pos hx, if_neg hy]
  · intro hx hy
    unfold wallResponse
    rw [if_neg hx, if_pos hy]
  · intro hx hy
    unfold wallResponse
    rw [if_pos hx, if_pos hy]
  · intro s
    refine ⟨rfl, rfl, rfl, ?_, rfl⟩
    rw [update_blocks, List.length_map]

/-- C4 witness: the left-wall-only case at a concrete input. -/
theorem thm_C4_witness : wallResponse 0 300 15 (-3) 7 = (3, 7) := by
  have h := (thm_C4 0 300 15 (-3) 7).1 (by norm_num) (by norm_num)
  simpa using h

/-- C5: a visible block whose collision test is positive is marked invisible
and flips velocity_x when the vertical-edge flag is set and velocity_y when
the horizontal-edge flag is set; in particular for a block (0,0)-(30,30) and
a ball at (15,35) with radius 15 the test yields flags (false, true), so the
scan hides the block, inverts velocity_y and leaves velocity_x unchanged. -/
theorem thm_C5 :
    (∀ (cx cy r : ℚ) (b : Block) (vx vy : ℚ) (fx fy : Bool), b.is_visible = true →
      check_circle_rectangle_collision cx cy r b.rect_x1 b.rect_y1 b.rect_x2 b.rect_y2
          = some (fx, fy) →
      stepBlock cx cy r b = { b with is_visible := false } ∧
      blockVelStep cx cy r (vx, vy) b = (if fx then -vx else vx, if fy then -vy else vy)) ∧
    check_circle_rectangle_collision 15 35 15 0 0 30 30 = some (false, true) ∧
    (∀ vx vy : ℚ, scanBlocks 15 35 15 [Block.new 0 0 30 30] vx vy =
      ([{ rect_x1 := 0, rect_y1 := 0, rect_x2 := 30, rect_y2 := 30, is_visible := false }],
       vx, -vy)) := by
  refine ⟨?_, by with_unfolding_all rfl, ?_⟩
  · intro cx cy r b vx vy fx fy hb hc
    constructor
    · simp [stepBlock, hb, hc]
    · simp [blockVelStep, hb, hc]
  · intro vx vy
    have hc : check_circle_rectangle_collision 15 35 15 0 0 30 30 = some (false, true) := by
      with_unfolding_all rfl
    simp [scanBlocks, Block.new, hc]

/-- C5 witness: the generic step property applied at the scenario-C input. -/
theorem thm_C5_witness :
    stepBlock 15 35 15 (Block.new 0 0 30 30)
        = { Block.new 0 0 30 30 with is_visible := false } ∧
    blockVelStep 15 35 15 (3, 7) (Block.new 0 0 30 30) = (3, -7) := by
  have h := thm_C5.1 15 35 15 (Block.new 0 0 30 30) 3 7 false true rfl
    (by with_unfolding_all rfl)
  simpa using h

/-- C6: whenever the ball's lower edge has reached the paddle's y and the
ball's center is within the paddle's span, the paddle response inverts
velocity_y and adds (center offset)·0.05 to velocity_x; with the center dead
on the paddle's center the offset is 0 and only velocity_y is inverted. -/
theorem thm_C6 (cx cy r : ℚ) (p : Paddle) (vx vy : ℚ)
    (h1 : cy + r ≥ p.y) (h2 : cx ≥ p.x) (h3 : cx ≤ p.x + p.width) :
    paddleResponse cx cy r p vx vy
        = (vx + (cx - (p.x + p.width / 2)) * (0.05 : ℚ), -vy) ∧
    (cx = p.x + p.width / 2 → paddleResponse cx cy r p vx vy = (vx, -vy)) := by
  have hcond : cy + r ≥ p.y ∧ cx ≥ p.x ∧ cx ≤ p.x + p.width := ⟨h1, h2, h3⟩
  constructor
  · unfold paddleResponse
    rw [if_pos hcond]
  · intro hcx
    unfold paddleResponse
    rw [if_pos hcond, hcx]
    congr 1
    ring

/-- C6 witness: ball center equal to the paddle center of the paddle from
`MainState::new` after it has reached x=375; only vy is inverted. -/
theorem thm_C6_witness :
    paddleResponse 575 540 15 (Paddle.new 375 550 400 10) 3 3 = (3, -3) := by
  have h := (thm_C6 575 540 15 (Paddle.new 375 550 400 10) 3 3
    (by norm_num [Paddle.new]) (by norm_num [Paddle.new]) (by norm_num [Paddle.new])).2
    (by norm_num [Paddle.new])
  simpa using h

/-- C7: the block scan has no short-circuit — its output blocks are the
pointwise image of `stepBlock` (so every visible block that tests positive
in the tick becomes hidden, whatever happened earlier in the scan) and its
velocity is the left fold of the per-block response over the whole list; for
two adjacent blocks both hit at a shared corner, both become hidden and each
velocity component is inverted twice, a net no-op. -/
theorem thm_C7 :
    (∀ (cx cy r : ℚ) (l : List Block) (vx vy : ℚ),
      (scanBlocks cx cy r l vx vy).1 = l.map (stepBlock cx cy r) ∧
      (scanBlocks cx cy r l vx vy).2 = l.foldl (blockVelStep cx cy r) (vx, vy) ∧
      (∀ (i : ℕ) (b : Block), l[i]? = some b → b.is_visible = true →
        check_circle_rectangle_collision cx cy r b.rect_x1 b.rect_y1 b.rect_x2 b.rect_y2 ≠ none →
        (scanBlocks cx cy r l vx vy).1[i]? = some { b with is_visible := false })) ∧
    (∀ vx vy : ℚ, scanBlocks 30 35 15 [Block.new 0 0 30 30, Block.new 30 0 30 30] vx vy =
      ([{ rect_x1 := 0, rect_y1 := 0, rect_x2 := 30, rect_y2 := 30, is_visible := false },
        { rect_x1 := 30, rect_y1 := 0, rect_x2 := 60, rect_y2 := 30, is_visible := false }],
       vx, vy)) := by
  constructor
  · intro cx cy r l vx vy
    refine ⟨by rw [scanBlocks_eq], by rw [scanBlocks_eq], ?_⟩
    intro i b hb hvis hcoll
    rw [scanBlocks_eq]
    have hsome : (check_circle_rectangle_collision cx cy r
        b.rect_x1 b.rect_y1 b.rect_x2 b.rect_y2).isSome = true :=
      Option.isSome_iff_ne_none.mpr hcoll
    simp only [List.getElem?_map, hb, Option.map_some]
    simp [stepBlock, hvis, hsome]
  · intro vx vy
    have hc1 : check_circle_rectangle_collision 30 35 15 0 0 30 30 = some (true, true) := by
      with_unfolding_all rfl
    have hc2 : check_circle_rectangle_collision 30 35 15 30 0 60 30 = some (true, true) := by
      with_unfolding_all rfl
    norm_num [scanBlocks, Block.new, hc1, hc2]

/-- C7 witness: the pointwise no-short-circuit property applied at a
concrete hit block. -/
theorem thm_C7_witness :
    (scanBlocks 15 35 15 [Block.new 0 0 30 30] 3 7).1[0]?
      = some { Block.new 0 0 30 30 with is_visible := false } :=
  (thm_C7.1 15 35 15 [Block.new 0 0 30 30] 3 7).2.2 0 (Block.new 0 0 30 30) rfl rfl
    (by with_unfolding_all exact fun h => Option.noConfusion h)

/-- C8: one tick of `update` from the initial state moves the ball from
(400,300) to (403,303), keeps velocity (3,3), leaves every block's
visibility unchanged, and advances the paddle from x=375 to x=380 with
direction still +1. -/
theorem thm_C8 :
    MainState.new.update.circle_x = 403 ∧ MainState.new.update.circle_y = 303 ∧
    MainState.new.update.velocity_x = 3 ∧ MainState.new.update.velocity_y = 3 ∧
    MainState.new.update.blocks = MainState.new.blocks ∧
    MainState.new.update.paddle.x = 380 ∧ MainState.new.update.paddle.direction = 1 := by
  refine ⟨?_, ?_, ?_, ?_, ?_, ?_, ?_⟩ <;> with_unfolding_all rfl

/-- C9: a circle center strictly inside the rectangle's open interior always
collides with both edge flags false, so in the block scan such a hit hides
the block while leaving both velocity components unchanged. -/
theorem thm_C9 (cx cy r rx1 ry1 rx2 ry2 : ℚ)
    (hx1 : rx1 < cx) (hx2 : cx < rx2) (hy1 : ry1 < cy) (hy2 : cy < ry2) :
    check_circle_rectangle_collision cx cy r rx1 ry1 rx2 ry2 = some (false, false) ∧
    (∀ (b : Block) (vx vy : ℚ), b.rect_x1 = rx1 → b.rect_y1 = ry1 → b.rect_x2 = rx2 →
      b.rect_y2 = ry2 → b.is_visible = true →
      blockVelStep cx cy r (vx, vy) b = (vx, vy) ∧
      stepBlock cx cy r b = { b with is_visible := false }) := by
  have hnx : max rx1 (min cx rx2) = cx := by
    rw [min_eq_left hx2.le, max_eq_right hx1.le]
  have hny : max ry1 (min cy ry2) = cy := by
    rw [min_eq_left hy2.le, max_eq_right hy1.le]
  have hchk : check_circle_rectangle_collision cx cy r rx1 ry1 rx2 ry2 = some (false, false) := by
    rw [check_spec, hnx, hny]
    rw [if_pos (by nlinarith [mul_self_nonneg r])]
    refine congrArg some ?_
    rw [Prod.mk.injEq]
    refine ⟨decide_eq_false ?_, decide_eq_false ?_⟩
    · rintro (h | h)
      · exact absurd h hx1.ne'
      · exact absurd h hx2.ne
    · rintro (h | h)
      · exact absurd h hy1.ne'
      · exact absurd h hy2.ne
  refine ⟨hchk, ?_⟩
  intro b vx vy e1 e2 e3 e4 hvis
  have hcb : check_circle_rectangle_collision cx cy r b.rect_x1 b.rect_y1 b.rect_x2 b.rect_y2
      = some (false, false) := by
    rw [e1, e2, e3, e4]
    exact hchk
  constructor
  · simp [blockVelStep, hvis, hcb]
  · simp [stepBlock, hvis, hcb]

/-- C9 witness: center (15,15) strictly inside the block (0,0)-(30,30). -/
theorem thm_C9_witness :
    check_circle_rectangle_collision 15 15 15 0 0 30 30 = some (false, false) :=
  (thm_C9 15 15 15 0 0 30 30 (by norm_num) (by norm_num) (by norm_num) (by norm_num)).1

/-- C10: the wall response depends only on the post-integration position —
whenever the boundary test holds the velocity component is negated whatever
its sign — and a concrete ball overlapping the left wall on two consecutive
ticks has velocity_x negated on each of them. -/
theorem thm_C10 :
    (∀ cx cy r vx vy : ℚ, (cx - r ≤ 0 ∨ cx + r ≥ 800) →
      (wallResponse cx cy r vx vy).1 = -vx) ∧
    (∀ cx cy r vx vy : ℚ, (cy - r ≤ 0 ∨ cy + r ≥ 600) →
      (wallResponse cx cy r vx vy).2 = -vy) ∧
    ((MainState.update
        { circle_x := -50, circle_y := 300, radius := 15, velocity_x := 1, velocity_y := 0,
          blocks := [], paddle := Paddle.new 375 550 400 10 }).velocity_x = -1 ∧
     (MainState.update (MainState.update
        { circle_x := -50, circle_y := 300, radius := 15, velocity_x := 1, velocity_y := 0,
          blocks := [], paddle := Paddle.new 375 550 400 10 })).velocity_x = 1) := by
  refine ⟨?_, ?_, by with_unfolding_all rfl, by with_unfolding_all rfl⟩
  · intro cx cy r vx vy h
    show (if cx - r ≤ 0 ∨ cx + r ≥ 800 then -vx else vx) = -vx
    rw [if_pos h]
  · intro cx cy r vx vy h
    show (if cy - r ≤ 0 ∨ cy + r ≥ 600 then -vy else vy) = -vy
    rw [if_pos h]

/-- C10 witness: the x-wall case applied at a concrete inward-moving ball. -/
theorem thm_C10_witness : (wallResponse 0 300 15 7 7).1 = -7 :=
  thm_C10.1 0 300 15 7 7 (Or.inl (by norm_num))
